import Mathlib

set_option maxRecDepth 20000

namespace EngAnalyze

/-! Shallow embedding of `streamlit_app.py` (english_analyze_tool): the
JSON extraction and validation pipeline, the session cache with TTL and
size-based eviction, and the HTML rendering of structure segments. -/

/-- Decoded JSON values, the model of the Python objects returned by the
standard JSON decoder.  Objects are ordered field lists, as CPython dicts
preserve insertion order; duplicate keys are resolved last-wins at decode
time, so decoded objects always carry distinct keys. -/
inductive JValue : Type
  | jnull : JValue
  | jbool : Bool → JValue
  | jnum : Int → JValue
  | jstr : String → JValue
  | jarr : List JValue → JValue
  | jobj : List (String × JValue) → JValue

/-- Python truthiness of a decoded value: `None`, `False`, `0`, `""`, `[]`
and the empty dict are falsy, everything else is truthy. -/
def truthy : JValue → Bool
  | JValue.jnull => false
  | JValue.jbool b => b
  | JValue.jnum n => !(n == 0)
  | JValue.jstr s => !(s == "")
  | JValue.jarr xs => !xs.isEmpty
  | JValue.jobj fs => !fs.isEmpty

/-- Lookup in an ordered association list, the model of Python `dict`
subscripting and `dict.get` (keys are distinct in every dict the program
builds, so first match equals the unique match). -/
def alookup {α : Type} : List (String × α) → String → Option α
  | [], _ => none
  | (k, v) :: rest, key => if k = key then some v else alookup rest key

/-- Assignment `d[key] = v` on a Python dict: an existing key keeps its
position and gets the new value, a new key is appended at the end. -/
def aset {α : Type} (key : String) (v : α) : List (String × α) → List (String × α)
  | [] => [(key, v)]
  | (k, w) :: rest => if k = key then (k, v) :: rest else (k, w) :: aset key v rest

/-- Deletion `del d[key]` on a Python dict: removes the (unique) entry with
that key, preserving the order of the others. -/
def aeraseKey {α : Type} (key : String) : List (String × α) → List (String × α)
  | [] => []
  | (k, w) :: rest => if k = key then rest else (k, w) :: aeraseKey key rest

/-- ASCII whitespace as recognised by Python's `str.strip()` and by the
regex class `\s` (the source only ever strips ASCII text around these
claims; the Unicode extras of Python never occur in the modelled data). -/
def isPyWs (c : Char) : Bool :=
  c == ' ' || c == '\t' || c == '\n' || c == '\r' || c == Char.ofNat 11 || c == Char.ofNat 12

/-- Leading-whitespace removal, the model of `str.lstrip()`. -/
def ltrimWs (s : String) : String :=
  String.mk (s.data.dropWhile isPyWs)

/-- Trailing-whitespace removal, the model of `str.rstrip()`. -/
def rtrimWs (s : String) : String :=
  String.mk ((s.data.reverse.dropWhile isPyWs).reverse)

/-- Surrounding-whitespace removal, the model of `str.strip()`. -/
def pyStrip (s : String) : String :=
  ltrimWs (rtrimWs s)

/-- Escape of one character under `html.escape(·, quote=True)`:
`&`, `<`, `>`, `"` and the single quote become entity references. -/
def escChar (c : Char) : List Char :=
  if c = '&' then ['&', 'a', 'm', 'p', ';']
  else if c = '<' then ['&', 'l', 't', ';']
  else if c = '>' then ['&', 'g', 't', ';']
  else if c = '"' then ['&', 'q', 'u', 'o', 't', ';']
  else if c = Char.ofNat 39 then ['&', '#', 'x', '2', '7', ';']
  else [c]

def escList : List Char → List Char
  | [] => []
  | c :: rest => escChar c ++ escList rest

/-- The model of Python `html.escape(s, quote=True)` (the source always
escapes with quoting: the default of `html.escape` is `quote=True`). -/
def escapeHtml (s : String) : String :=
  String.mk (escList s.data)

/-- Inverse entity decoding for the five entities `escapeHtml` emits; this
is the "HTML-unescape" reading used by the reconstruction claims. -/
def unescList : List Char → List Char
  | [] => []
  | '&' :: 'a' :: 'm' :: 'p' :: ';' :: r => '&' :: unescList r
  | '&' :: 'l' :: 't' :: ';' :: r => '<' :: unescList r
  | '&' :: 'g' :: 't' :: ';' :: r => '>' :: unescList r
  | '&' :: 'q' :: 'u' :: 'o' :: 't' :: ';' :: r => '"' :: unescList r
  | '&' :: '#' :: 'x' :: '2' :: '7' :: ';' :: r => Char.ofNat 39 :: unescList r
  | c :: rest => c :: unescList rest

def unescapeHtml (s : String) : String :=
  String.mk (unescList s.data)

/-- Concatenation of a list of strings in order. -/
def concatStrs : List String → String
  | [] => ""
  | s :: rest => s ++ concatStrs rest

/-! ### Model of `json.loads`

The source decodes the LLM output with the standard JSON decoder.  The
model below is a strict recursive-descent decoder over the JSON grammar
(objects, arrays, strings with escapes, integers, the three literals),
driven by a fuel counter large enough for any input; like the stdlib
decoder it rejects anything it cannot parse completely.  Fractional and
exponent number forms are not modelled (the analysis payloads contain
none), which only makes the modelled decoder reject more inputs. -/

/-- JSON insignificant whitespace (space, tab, newline, carriage return). -/
def isJsonWs (c : Char) : Bool :=
  c == ' ' || c == '\t' || c == '\n' || c == '\r'

def skipJWs (l : List Char) : List Char :=
  l.dropWhile isJsonWs

/-- Decoding of a two-character string escape. -/
def escMap (c : Char) : Option Char :=
  if c = '"' then some '"'
  else if c = '\\' then some '\\'
  else if c = '/' then some '/'
  else if c = 'b' then some (Char.ofNat 8)
  else if c = 'f' then some (Char.ofNat 12)
  else if c = 'n' then some '\n'
  else if c = 'r' then some '\r'
  else if c = 't' then some '\t'
  else none

def hexVal (c : Char) : Option Nat :=
  if '0' ≤ c ∧ c ≤ '9' then some (c.toNat - 48)
  else if 'a' ≤ c ∧ c ≤ 'f' then some (c.toNat - 87)
  else if 'A' ≤ c ∧ c ≤ 'F' then some (c.toNat - 55)
  else none

/-- Body of a JSON string literal after the opening quote: returns the
decoded characters and the input after the closing quote.  Unescaped
control characters are rejected, as in the strict stdlib decoder. -/
def parseStrBody : Nat → List Char → Option (List Char × List Char)
  | 0, _ => none
  | Nat.succ fuel, l =>
    match l with
    | [] => none
    | '"' :: rest => some ([], rest)
    | '\\' :: rest =>
      match rest with
      | 'u' :: h1 :: h2 :: h3 :: h4 :: r =>
        match hexVal h1, hexVal h2, hexVal h3, hexVal h4 with
        | some a, some b, some c, some d =>
          match parseStrBody fuel r with
          | some (cs, r2) => some (Char.ofNat (((a * 16 + b) * 16 + c) * 16 + d) :: cs, r2)
          | none => none
        | _, _, _, _ => none
      | c :: r =>
        match escMap c with
        | some ec =>
          match parseStrBody fuel r with
          | some (cs, r2) => some (ec :: cs, r2)
          | none => none
        | none => none
      | [] => none
    | c :: rest =>
      if c.toNat < 32 then none
      else
        match parseStrBody fuel rest with
        | some (cs, r2) => some (c :: cs, r2)
        | none => none

def digitsToNat (l : List Char) : Nat :=
  l.foldl (fun a c => a * 10 + (c.toNat - 48)) 0

/-- A JSON integer (optional minus, no leading zeros). -/
def parseNatPart (l : List Char) : Option (Nat × List Char) :=
  match l with
  | [] => none
  | '0' :: rest => if (rest.head?.map Char.isDigit).getD false then none else some (0, rest)
  | c :: _ =>
    if c.isDigit then some (digitsToNat (l.takeWhile Char.isDigit), l.dropWhile Char.isDigit)
    else none

def parseNum (l : List Char) : Option (Int × List Char) :=
  match l with
  | '-' :: rest =>
    match parseNatPart rest with
    | some (n, r) => some (-(n : Int), r)
    | none => none
  | _ =>
    match parseNatPart l with
    | some (n, r) => some ((n : Int), r)
    | none => none

/-- Internal state of the recursive-descent decoder: a value, the inside
of an object (first member or later members with an accumulator), or the
inside of an array. -/
inductive PMode : Type
  | val : PMode
  | objFirst : PMode
  | members : List (String × JValue) → PMode
  | arrFirst : PMode
  | elems : List JValue → PMode

/-- One fueled decoding step; every recursive call decreases the fuel. -/
def parseStep : Nat → PMode → List Char → Option (JValue × List Char)
  | 0, _, _ => none
  | Nat.succ fuel, PMode.val, l =>
    match l with
    | [] => none
    | c :: rest =>
      if c = '"' then
        match parseStrBody (rest.length + 1) rest with
        | some (cs, r) => some (JValue.jstr (String.mk cs), r)
        | none => none
      else if c = Char.ofNat 123 then
        parseStep fuel PMode.objFirst (skipJWs rest)
      else if c = '[' then
        parseStep fuel PMode.arrFirst (skipJWs rest)
      else if c = 't' then
        match rest with
        | 'r' :: 'u' :: 'e' :: r => some (JValue.jbool true, r)
        | _ => none
      else if c = 'f' then
        match rest with
        | 'a' :: 'l' :: 's' :: 'e' :: r => some (JValue.jbool false, r)
        | _ => none
      else if c = 'n' then
        match rest with
        | 'u' :: 'l' :: 'l' :: r => some (JValue.jnull, r)
        | _ => none
      else if c = '-' || c.isDigit then
        match parseNum l with
        | some (n, r) => some (JValue.jnum n, r)
        | none => none
      else none
  | Nat.succ fuel, PMode.objFirst, l =>
    match l with
    | [] => none
    | c :: rest =>
      if c = Char.ofNat 125 then some (JValue.jobj [], rest)
      else parseStep fuel (PMode.members []) l
  | Nat.succ fuel, PMode.members acc, l =>
    match l with
    | [] => none
    | c :: rest =>
      if c = '"' then
        match parseStrBody (rest.length + 1) rest with
        | some (ks, r1) =>
          match skipJWs r1 with
          | ':' :: r2 =>
            match parseStep fuel PMode.val (skipJWs r2) with
            | some (v, r3) =>
              match skipJWs r3 with
              | ',' :: r4 => parseStep fuel (PMode.members (aset (String.mk ks) v acc)) (skipJWs r4)
              | c2 :: r4 =>
                if c2 = Char.ofNat 125 then some (JValue.jobj (aset (String.mk ks) v acc), r4)
                else none
              | [] => none
            | none => none
          | _ => none
        | none => none
      else none
  | Nat.succ fuel, PMode.arrFirst, l =>
    match l with
    | [] => none
    | c :: _ =>
      if c = ']' then some (JValue.jarr [], l.tail)
      else parseStep fuel (PMode.elems []) l
  | Nat.succ fuel, PMode.elems acc, l =>
    match parseStep fuel PMode.val l with
    | some (v, r) =>
      match skipJWs r with
      | ',' :: r2 => parseStep fuel (PMode.elems (acc ++ [v])) (skipJWs r2)
      | c2 :: r2 => if c2 = ']' then some (JValue.jarr (acc ++ [v]), r2) else none
      | [] => none
    | none => none

/-- The model of `json.loads`: decode one value surrounded by optional
whitespace; anything else is a decode error. -/
def jsonParse (s : String) : Option JValue :=
  match parseStep (4 * s.data.length + 16) PMode.val (skipJWs s.data) with
  | some (v, rest) => if skipJWs rest = [] then some v else none
  | none => none

/-! ### Fence stripping and extraction (`extract_json_from_llm_response`) -/

/-- Is `p` a prefix of `l`? -/
def isPre : List Char → List Char → Bool
  | [], _ => true
  | _ :: _, [] => false
  | a :: as, b :: bs => a == b && isPre as bs

def startsW (s p : String) : Bool :=
  isPre p.data s.data

def endsW (s p : String) : Bool :=
  isPre p.data.reverse s.data.reverse

/-- Is the substring `pat` contained anywhere in `l`? -/
def subList (pat : List Char) : List Char → Bool
  | [] => isPre pat []
  | c :: rest => isPre pat (c :: rest) || subList pat rest

def strContains (s pat : String) : Bool :=
  subList pat.data s.data

/-- Model of `re.sub(r'^\s*BT(?:json)?\s*\n*', '', raw_text, flags=I|S)`
where BT is a triple backtick: an anchored pattern, so it fires only when
the text begins, after optional whitespace, with a triple backtick; the
optional case-insensitive `json` tag and the following whitespace are
consumed as well.  When the pattern does not fire the text is unchanged. -/
def stripLeadingFence (raw : String) : String :=
  let t := ltrimWs raw
  if startsW t "```" then
    let u := t.data.drop 3
    let u2 := if (u.take 4).map Char.toLower = ['j', 's', 'o', 'n'] then u.drop 4 else u
    String.mk (u2.dropWhile isPyWs)
  else raw

/-- Model of `re.sub(r'\s*\n*BT\s*$', '', json_text, flags=S)` with BT a
triple backtick: the pattern is anchored at the end, so it fires exactly
when the text, after discarding trailing whitespace, ends with a triple
backtick; the backticks and the whitespace run before them are removed. -/
def stripTrailingFence (s : String) : String :=
  let t := rtrimWs s
  if endsW t "```" then rtrimWs (String.mk (t.data.take (t.data.length - 3)))
  else s

/-- `extract_json_from_llm_response` (streamlit_app.py lines 108-115):
strip an optional leading and trailing code fence, then decode; any
decode error yields `none`. -/
def extract_json_from_llm_response (raw_text : String) : Option JValue :=
  jsonParse (stripTrailingFence (stripLeadingFence raw_text))

/-- The text neither begins (after leading whitespace) nor ends (before
trailing whitespace) with a triple backtick, i.e. it carries no code
fence for either anchored pattern to strip. -/
def isUnfenced (raw : String) : Bool :=
  !startsW (ltrimWs raw) "```" && !endsW (rtrimWs raw) "```"

/-! ### `validate_analysis_json` (streamlit_app.py lines 117-133) -/

def requiredKeys : List String :=
  ["Source Sentence", "Translation", "StructureAnalysis", "Vocabulary", "Decomposition"]

/-- Per-element check in the `StructureAnalysis` loop: the element must be
a dict, and when `item.get("highlight", False)` is truthy, the values of
`segment`, `role` and `explanation_cn` (default `None`) must be truthy. -/
def structureItemOk (item : JValue) : Bool :=
  match item with
  | JValue.jobj f =>
    !truthy ((alookup f "highlight").getD (JValue.jbool false)) ||
      (truthy ((alookup f "segment").getD JValue.jnull) &&
       truthy ((alookup f "role").getD JValue.jnull) &&
       truthy ((alookup f "explanation_cn").getD JValue.jnull))
  | _ => false

/-- `validate_analysis_json`: the value must be a dict containing the five
required keys, `StructureAnalysis` must be a list, and every element must
pass `structureItemOk`. -/
def validate_analysis_json (data : JValue) : Bool :=
  match data with
  | JValue.jobj fields =>
    requiredKeys.all (fun k => (alookup fields k).isSome) &&
      (match alookup fields "StructureAnalysis" with
       | some (JValue.jarr items) => items.all structureItemOk
       | _ => false)
  | _ => false

/-! ### The session cache (streamlit_app.py lines 11-12, 136-146, 224-233) -/

def CACHE_SIZE_LIMIT : Nat := 10

def CACHE_TTL_SECONDS : Int := 30

/-- One cache entry: `{'result': ..., 'timestamp': ...}`.  Timestamps are
modelled as integers; only their ordering and differences matter. -/
structure CacheEntry : Type where
  result : JValue
  timestamp : Int

/-- The cache lookup of lines 142-146: a hit requires the key to be
present and `current_time - entry['timestamp'] < CACHE_TTL_SECONDS`;
otherwise the call falls through to the LLM (a miss).  The read path
never mutates the cache. -/
def cacheGet (cache : List (String × CacheEntry)) (key : String) (now : Int) : Option JValue :=
  match alookup cache key with
  | some e => if now - e.timestamp < CACHE_TTL_SECONDS then some e.result else none
  | none => none

/-- `min(llm_cache_keys, key=lambda k: llm_cache[k]['timestamp'])`: the
first entry in iteration (= insertion) order whose timestamp is minimal,
paired with its key.  Python's `min` keeps the earlier element on ties. -/
def minByTimestamp : List (String × CacheEntry) → Option (String × CacheEntry)
  | [] => none
  | p :: rest =>
    match minByTimestamp rest with
    | none => some p
    | some q => if p.2.timestamp ≤ q.2.timestamp then some p else some q

/-- The cache update of lines 226-233: when the cache already holds at
least `CACHE_SIZE_LIMIT` entries the entry with the smallest timestamp is
deleted, then the new entry is stored under `cache_key`. -/
def cachePut (cache : List (String × CacheEntry)) (key : String) (v : JValue) (now : Int) :
    List (String × CacheEntry) :=
  let cache2 :=
    if CACHE_SIZE_LIMIT ≤ cache.length then
      match minByTimestamp cache with
      | some oldest => aeraseKey oldest.1 cache
      | none => cache
    else cache
  aset key (CacheEntry.mk v now) cache2

/-- The tail of `llm_english_analyze_with_time` (lines 222-235), after the
LLM call produced the raw text `llm_result`: extraction, validation, the
conditional cache update, and the returned pair.  `current_time` is the
time captured at function entry (line 138) and `elapsed_time` the measured
LLM latency; both are opaque here.  Returns the (result, elapsed) pair
together with the new cache state. -/
def llm_english_analyze_update (cache : List (String × CacheEntry)) (cache_key : String)
    (current_time : Int) (llm_result : String) (elapsed_time : Int) :
    (Option JValue × Int) × List (String × CacheEntry) :=
  match extract_json_from_llm_response llm_result with
  | some json_result =>
    if truthy json_result && validate_analysis_json json_result then
      ((some json_result, elapsed_time), cachePut cache cache_key json_result current_time)
    else ((some json_result, elapsed_time), cache)
  | none => ((none, elapsed_time), cache)

/-- The cache key of line 137 applied to what the caller passes at line
373 (`sentence_input.strip()`): the hex digest of the UTF-8 bytes of the
trimmed user input.  The digest itself (`hashlib.md5(...).hexdigest()`) is
stdlib code, abstracted as an arbitrary function of the encoded bytes;
the claims about the key depend only on what is fed to it. -/
def cache_key_of (md5_hexdigest : List UInt8 → String) (sentence : String) : String :=
  md5_hexdigest sentence.toUTF8.toList

def cache_key_for_input (md5_hexdigest : List UInt8 → String) (user_input : String) : String :=
  cache_key_of md5_hexdigest (pyStrip user_input)

/-- A stand-in digest function used only to instantiate witnesses. -/
def md5Stub : List UInt8 → String :=
  fun bs => String.mk (bs.map (fun b => Char.ofNat (b.toNat % 26 + 97)))

/-! ### Rendering (streamlit_app.py lines 238-258, 400-422, 437-462) -/

def HIGHLIGHT_COLORS : List String :=
  ["#fce8a9", "#a9fce8", "#e8a9fc", "#fcd9a9"]

/-- Fields of a structure element; the renderer only runs on validated
payloads, whose `StructureAnalysis` elements are all dicts. -/
def asObj : JValue → List (String × JValue)
  | JValue.jobj f => f
  | _ => []

/-- `fields.get(k, d)` where the value is used as a string.  The rendering
code calls string methods on these values, so the rendering claims are
stated for payloads whose fields are strings (or absent). -/
def strOrD (fields : List (String × JValue)) (k d : String) : String :=
  match alookup fields k with
  | some (JValue.jstr s) => s
  | _ => d

/-- Does field `k` hold a string, or is it absent (so the default kicks
in)?  The rendering claims are restricted to such payloads, on which
`strOrD` is exact. -/
def strFieldB (fields : List (String × JValue)) (k : String) : Bool :=
  match alookup fields k with
  | some (JValue.jstr _) => true
  | none => true
  | some _ => false

def segOf (item : JValue) : String :=
  strOrD (asObj item) "segment" ""

def hlOf (item : JValue) : Bool :=
  truthy ((alookup (asObj item) "highlight").getD (JValue.jbool false))

/-- `create_instant_hover_highlight` (lines 238-258): both the stripped
segment and the stripped tooltip are escaped, then embedded in the
compact span markup. -/
def create_instant_hover_highlight (segment tooltip_content color : String) : String :=
  let escaped_segment := escapeHtml (pyStrip segment)
  let escaped_tooltip := escapeHtml (pyStrip tooltip_content)
  "<span class=\"custom-tooltip\" data-tooltip=\"" ++ escaped_tooltip ++
    "\" style=\"background-color: " ++ color ++
    "; border-bottom: 2px solid #ffbf00; padding: 2px 0; margin-right: 2px;\">" ++
    escaped_segment ++ "</span>"

/-- One iteration of the inline highlight loop (lines 405-419), carrying
the rotating colour index: a truthy `highlight` with a non-blank segment
produces the tooltip span and advances the colour index; anything else
emits the escaped segment verbatim. -/
def inline_step (ci : Nat) (item : JValue) : Nat × String :=
  let segment := segOf item
  if hlOf item = true ∧ pyStrip segment ≠ "" then
    let color := HIGHLIGHT_COLORS.getD (ci % HIGHLIGHT_COLORS.length) ""
    let role := strOrD (asObj item) "role" "结构"
    let explanation := strOrD (asObj item) "explanation_cn" "无解释"
    (ci + 1, create_instant_hover_highlight segment ("【" ++ role ++ "】: " ++ explanation) color)
  else (ci, escapeHtml segment)

/-- The visible text content of the fragment `inline_step` emits for one
element: the escaped stripped segment inside the span for rendered
highlights, the escaped raw segment otherwise. -/
def inline_frag_text (item : JValue) : String :=
  if hlOf item = true ∧ pyStrip (segOf item) ≠ "" then escapeHtml (pyStrip (segOf item))
  else escapeHtml (segOf item)

/-- One iteration of the card loop (lines 437-462): element `idx` with a
truthy `highlight` and non-blank stripped segment yields a card; the
segment is escaped but `role` and `explanation_cn` are interpolated into
the markup as-is.  Elements that fail the condition yield no card. -/
def card_html_for (idx : Nat) (item : JValue) : Option String :=
  let segment := pyStrip (segOf item)
  if hlOf item = true ∧ segment ≠ "" then
    let color := HIGHLIGHT_COLORS.getD (idx % HIGHLIGHT_COLORS.length) ""
    let role := strOrD (asObj item) "role" "结构"
    let explanation := strOrD (asObj item) "explanation_cn" "无解释"
    some ("\n            <div style=\"\n                background-color: " ++ color ++
      ";\n                padding: 12px 16px;\n                margin-bottom: 8px;\n                border-radius: 12px;\n                box-shadow: 0 2px 6px rgba(0,0,0,0.15);\n            \">\n                <strong>原句片段:</strong> " ++
      escapeHtml segment ++ "<br>\n                <strong>角色:</strong> " ++ role ++
      "<br>\n                <strong>解释:</strong> " ++ explanation ++
      "\n            </div>\n            ")
  else none

/-- The `StructureAnalysis` list of a payload (`analysis_json.get("StructureAnalysis", [])`). -/
def structureItems (d : JValue) : List JValue :=
  match alookup (asObj d) "StructureAnalysis" with
  | some (JValue.jarr items) => items
  | _ => []

/-- `analysis_json.get("Source Sentence", "")`. -/
def sourceOf (d : JValue) : String :=
  strOrD (asObj d) "Source Sentence" ""

/-- Concatenation of the `segment` texts of a payload in order. -/
def concatSegments (d : JValue) : String :=
  concatStrs ((structureItems d).map segOf)

/-! ### Lemmas about fence stripping -/

theorem stripLeadingFence_id (raw : String) (h : startsW (ltrimWs raw) "```" = false) :
    stripLeadingFence raw = raw := by
  simp [stripLeadingFence, h]

theorem stripTrailingFence_id (s : String) (h : endsW (rtrimWs s) "```" = false) :
    stripTrailingFence s = s := by
  simp [stripTrailingFence, h]

/-- Claim C9: raw text that is already unfenced and decodes directly is
extracted to exactly the directly decoded object, and any input whose
fence-stripped remainder fails to decode is extracted to the failure
marker `none`, never a partial object. -/
theorem extraction_unfenced_and_failure (raw : String) :
    (isUnfenced raw = true → (jsonParse raw).isSome = true →
      extract_json_from_llm_response raw = jsonParse raw) ∧
    (jsonParse (stripTrailingFence (stripLeadingFence raw)) = none →
      extract_json_from_llm_response raw = none) := by
  constructor
  · intro hu _
    have hu2 : startsW (ltrimWs raw) "```" = false ∧ endsW (rtrimWs raw) "```" = false := by
      simpa [isUnfenced, Bool.and_eq_true, Bool.not_eq_true'] using hu
    rw [extract_json_from_llm_response, stripLeadingFence_id raw hu2.1,
      stripTrailingFence_id raw hu2.2]
  · intro h
    rw [extract_json_from_llm_response, h]

theorem extraction_unfenced_and_failure_witness :
    extract_json_from_llm_response "[1]" = jsonParse "[1]" ∧
    extract_json_from_llm_response "```x" = none :=
  ⟨(extraction_unfenced_and_failure "[1]").1 rfl rfl,
   (extraction_unfenced_and_failure "```x").2 rfl⟩

/-- Claim C7: the cache key computed for a user input is deterministic,
and two inputs with the same surrounding-whitespace trim get the same
key (the caller hashes the trimmed input, line 373 feeding line 137). -/
theorem cache_key_deterministic_and_trim_invariant
    (md5_hexdigest : List UInt8 → String) (s1 s2 : String) :
    cache_key_for_input md5_hexdigest s1 = cache_key_for_input md5_hexdigest s1 ∧
    (pyStrip s1 = pyStrip s2 →
      cache_key_for_input md5_hexdigest s1 = cache_key_for_input md5_hexdigest s2) := by
  refine ⟨rfl, fun h => ?_⟩
  rw [cache_key_for_input, cache_key_for_input, h]

theorem cache_key_deterministic_and_trim_invariant_witness :
    cache_key_for_input md5Stub " hello " = cache_key_for_input md5Stub " hello " ∧
    cache_key_for_input md5Stub " hello " = cache_key_for_input md5Stub "hello" :=
  ⟨(cache_key_deterministic_and_trim_invariant md5Stub " hello " "hello").1,
   (cache_key_deterministic_and_trim_invariant md5Stub " hello " "hello").2 rfl⟩

/-- Claim C10: a structure element whose `highlight` is truthy but whose
segment text is empty or whitespace-only is rendered as non-highlighted:
the inline loop emits only the escaped raw segment, with no tooltip span
and no colour-index advance, and the card loop emits no card for it. -/
theorem blank_highlighted_segment_renders_plain
    (f : List (String × JValue)) (seg : String) (ci idx : Nat)
    (hseg : alookup f "segment" = some (JValue.jstr seg))
    (hhl : truthy ((alookup f "highlight").getD (JValue.jbool false)) = true)
    (hblank : pyStrip seg = "") :
    inline_step ci (JValue.jobj f) = (ci, escapeHtml seg) ∧
    card_html_for idx (JValue.jobj f) = none := by
  have hsegOf : segOf (JValue.jobj f) = seg := by
    simp [segOf, asObj, strOrD, hseg]
  constructor
  · rw [inline_step, hsegOf]
    simp [hblank]
  · rw [card_html_for, hsegOf]
    simp [hblank]

theorem blank_highlighted_segment_renders_plain_witness :
    inline_step 2 (JValue.jobj [("segment", JValue.jstr "  "), ("highlight", JValue.jbool true)]) =
      (2, escapeHtml "  ") ∧
    card_html_for 1 (JValue.jobj [("segment", JValue.jstr "  "), ("highlight", JValue.jbool true)]) =
      none :=
  blank_highlighted_segment_renders_plain
    [("segment", JValue.jstr "  "), ("highlight", JValue.jbool true)] "  " 2 1 rfl rfl rfl

/-! ### Association list lemmas -/

theorem alookup_aset_self {α : Type} (l : List (String × α)) (key : String) (v : α) :
    alookup (aset key v l) key = some v := by
  induction l with
  | nil => simp [aset, alookup]
  | cons p rest ih =>
    obtain ⟨k, w⟩ := p
    by_cases hk : k = key
    · simp [aset, hk, alookup]
    · simp [aset, hk, alookup, ih]

theorem alookup_aset_ne {α : Type} (l : List (String × α)) (key k2 : String) (v : α)
    (h : k2 ≠ key) : alookup (aset key v l) k2 = alookup l k2 := by
  have h2 : key ≠ k2 := Ne.symm h
  induction l with
  | nil => simp [aset, alookup, h2]
  | cons p rest ih =>
    obtain ⟨k, w⟩ := p
    by_cases hk : k = key
    · subst hk
      simp [aset, alookup, h2]
    · simp only [aset, if_neg hk]
      by_cases hk2 : k = k2
      · simp [alookup, hk2]
      · simp [alookup, hk2, ih]

theorem alookup_aerase_ne {α : Type} (l : List (String × α)) (key k2 : String)
    (h : k2 ≠ key) : alookup (aeraseKey key l) k2 = alookup l k2 := by
  have h2 : key ≠ k2 := Ne.symm h
  induction l with
  | nil => simp [aeraseKey]
  | cons p rest ih =>
    obtain ⟨k, w⟩ := p
    by_cases hk : k = key
    · subst hk
      simp [aeraseKey, alookup, h2]
    · simp only [aeraseKey, if_neg hk]
      by_cases hk2 : k = k2
      · simp [alookup, hk2]
      · simp [alookup, hk2, ih]

theorem alookup_eq_none_of_not_mem {α : Type} (l : List (String × α)) (key : String)
    (h : key ∉ l.map Prod.fst) : alookup l key = none := by
  induction l with
  | nil => simp [alookup]
  | cons p rest ih =>
    obtain ⟨k, w⟩ := p
    simp only [List.map_cons, List.mem_cons] at h
    push_neg at h
    have h1 : k ≠ key := Ne.symm h.1
    simp [alookup, h1, ih h.2]

theorem alookup_aerase_self {α : Type} (l : List (String × α)) (key : String)
    (h : (l.map Prod.fst).Nodup) : alookup (aeraseKey key l) key = none := by
  induction l with
  | nil => simp [aeraseKey, alookup]
  | cons p rest ih =>
    obtain ⟨k, w⟩ := p
    simp only [List.map_cons, List.nodup_cons] at h
    by_cases hk : k = key
    · subst hk
      simp only [aeraseKey, if_pos rfl]
      exact alookup_eq_none_of_not_mem rest k h.1
    · simp [aeraseKey, hk, alookup, ih h.2]

theorem length_aerase_of_mem {α : Type} (l : List (String × α)) (key : String)
    (h : key ∈ l.map Prod.fst) : (aeraseKey key l).length + 1 = l.length := by
  induction l with
  | nil => simp at h
  | cons p rest ih =>
    obtain ⟨k, w⟩ := p
    by_cases hk : k = key
    · simp [aeraseKey, hk]
    · simp only [List.map_cons, List.mem_cons] at h
      rcases h with h | h
      · exact absurd h.symm hk
      · simp [aeraseKey, hk, ih h]

theorem length_aset_le {α : Type} (l : List (String × α)) (key : String) (v : α) :
    (aset key v l).length ≤ l.length + 1 := by
  induction l with
  | nil => simp [aset]
  | cons p rest ih =>
    obtain ⟨k, w⟩ := p
    by_cases hk : k = key
    · simp [aset, hk]
    · simp only [aset, if_neg hk, List.length_cons]
      omega

/-! ### Lemmas about the oldest-entry selection -/

theorem minByTimestamp_eq_none (l : List (String × CacheEntry))
    (h : minByTimestamp l = none) : l = [] := by
  cases l with
  | nil => rfl
  | cons x rest =>
    exfalso
    simp only [minByTimestamp] at h
    split at h
    · exact Option.noConfusion h
    · split at h <;> exact Option.noConfusion h

theorem minByTimestamp_mem (l : List (String × CacheEntry)) (p : String × CacheEntry)
    (h : minByTimestamp l = some p) : p ∈ l := by
  induction l generalizing p with
  | nil => exact Option.noConfusion h
  | cons q rest ih =>
    simp only [minByTimestamp] at h
    split at h
    · simp at h
      simp [h]
    · rename_i m hm
      split at h
      · simp at h
        simp [h]
      · simp at h
        subst h
        exact List.mem_cons_of_mem q (ih m hm)

theorem minByTimestamp_le (l : List (String × CacheEntry)) (p : String × CacheEntry)
    (h : minByTimestamp l = some p) :
    ∀ q ∈ l, p.2.timestamp ≤ q.2.timestamp := by
  induction l generalizing p with
  | nil => exact Option.noConfusion h
  | cons x rest ih =>
    intro q hq
    simp only [minByTimestamp] at h
    split at h
    · rename_i hm
      have hrest : rest = [] := minByTimestamp_eq_none rest hm
      simp at h
      subst hrest h
      rcases List.mem_singleton.mp hq with rfl
      exact le_refl _
    · rename_i m hm
      split at h
      · rename_i hle
        simp at h
        subst h
        rcases List.mem_cons.mp hq with rfl | hq2
        · exact le_refl _
        · exact le_trans hle (ih m hm q hq2)
      · rename_i hle
        simp at h
        subst h
        rcases List.mem_cons.mp hq with rfl | hq2
        · omega
        · exact ih _ hm q hq2

theorem minByTimestamp_isSome (l : List (String × CacheEntry)) (h : l ≠ []) :
    (minByTimestamp l).isSome = true := by
  cases l with
  | nil => exact absurd rfl h
  | cons x rest =>
    simp only [minByTimestamp]
    split
    · simp
    · split <;> simp

theorem alookup_cachePut_self (c : List (String × CacheEntry)) (k : String) (v : JValue)
    (t : Int) : alookup (cachePut c k v t) k = some (CacheEntry.mk v t) := by
  rw [cachePut]
  exact alookup_aset_self _ k (CacheEntry.mk v t)

/-- Claim C5: after a value is stored under a key at time `t0`, a lookup
of that key at time `t` hits and returns the stored value exactly when
`t - t0 < CACHE_TTL_SECONDS`; at or past the TTL the lookup behaves as a
miss while the stale entry stays in the cache (the read path never
removes it). -/
theorem cache_ttl_roundtrip (c : List (String × CacheEntry)) (k : String) (v : JValue)
    (t0 t : Int) :
    (t - t0 < CACHE_TTL_SECONDS → cacheGet (cachePut c k v t0) k t = some v) ∧
    (CACHE_TTL_SECONDS ≤ t - t0 →
      cacheGet (cachePut c k v t0) k t = none ∧
      (alookup (cachePut c k v t0) k).isSome = true) := by
  have hl : alookup (cachePut c k v t0) k = some (CacheEntry.mk v t0) :=
    alookup_cachePut_self c k v t0
  constructor
  · intro hfresh
    rw [cacheGet, hl]
    simp [hfresh]
  · intro hstale
    refine ⟨?_, by simp [hl]⟩
    rw [cacheGet, hl]
    simp only
    rw [if_neg (by omega)]

theorem cache_ttl_roundtrip_witness :
    cacheGet (cachePut [] "k" JValue.jnull 0) "k" 10 = some JValue.jnull ∧
    cacheGet (cachePut [] "k" JValue.jnull 0) "k" 40 = none :=
  ⟨(cache_ttl_roundtrip [] "k" JValue.jnull 0 10).1 (by decide),
   ((cache_ttl_roundtrip [] "k" JValue.jnull 0 40).2 (by decide)).1⟩

/-- Claim C6: a store into a cache at capacity (the only way a reachable
cache state can have at least `CACHE_SIZE_LIMIT` entries) first evicts
exactly the entry with the smallest timestamp among those present, then
inserts the new entry, which is afterwards retrievable; every other entry
is untouched, and the size never exceeds `CACHE_SIZE_LIMIT`. -/
theorem cache_eviction (c : List (String × CacheEntry)) (k : String) (v : JValue) (t : Int)
    (hnd : (c.map Prod.fst).Nodup) (hcap : c.length ≤ CACHE_SIZE_LIMIT) :
    (cachePut c k v t).length ≤ CACHE_SIZE_LIMIT ∧
    (CACHE_SIZE_LIMIT ≤ c.length → (minByTimestamp c).isSome = true) ∧
    (∀ p, CACHE_SIZE_LIMIT ≤ c.length → minByTimestamp c = some p →
      p ∈ c ∧
      (∀ q ∈ c, p.2.timestamp ≤ q.2.timestamp) ∧
      cachePut c k v t = aset k (CacheEntry.mk v t) (aeraseKey p.1 c) ∧
      alookup (cachePut c k v t) k = some (CacheEntry.mk v t) ∧
      (∀ k2, k2 ≠ p.1 → k2 ≠ k → alookup (cachePut c k v t) k2 = alookup c k2) ∧
      (p.1 ≠ k → alookup (cachePut c k v t) p.1 = none)) := by
  refine ⟨?_, ?_, ?_⟩
  · by_cases hfull : CACHE_SIZE_LIMIT ≤ c.length
    · cases hm : minByTimestamp c with
      | none =>
        have : c = [] := minByTimestamp_eq_none c hm
        subst this
        simp [CACHE_SIZE_LIMIT] at hfull
      | some p =>
        have hmem : p.1 ∈ c.map Prod.fst :=
          List.mem_map_of_mem Prod.fst (minByTimestamp_mem c p hm)
        have hlen : (aeraseKey p.1 c).length + 1 = c.length :=
          length_aerase_of_mem c p.1 hmem
        have heq : cachePut c k v t = aset k (CacheEntry.mk v t) (aeraseKey p.1 c) := by
          rw [cachePut]
          simp [hfull, hm]
        rw [heq]
        have := length_aset_le (aeraseKey p.1 c) k (CacheEntry.mk v t)
        omega
    · have heq : cachePut c k v t = aset k (CacheEntry.mk v t) c := by
        rw [cachePut]
        simp [hfull]
      rw [heq]
      have := length_aset_le c k (CacheEntry.mk v t)
      omega
  · intro hfull
    refine minByTimestamp_isSome c ?_
    intro hnil
    subst hnil
    simp [CACHE_SIZE_LIMIT] at hfull
  · intro p hfull hm
    have heq : cachePut c k v t = aset k (CacheEntry.mk v t) (aeraseKey p.1 c) := by
      rw [cachePut]
      simp [hfull, hm]
    refine ⟨minByTimestamp_mem c p hm, minByTimestamp_le c p hm, heq, ?_, ?_, ?_⟩
    · rw [heq]
      exact alookup_aset_self _ k (CacheEntry.mk v t)
    · intro k2 hne1 hne2
      rw [heq, alookup_aset_ne _ k k2 _ hne2, alookup_aerase_ne _ p.1 k2 hne1]
    · intro hne
      rw [heq, alookup_aset_ne _ k p.1 _ hne]
      exact alookup_aerase_self c p.1 hnd

/-- A concrete full cache used to instantiate the eviction theorem: ten
distinct keys, the unique oldest timestamp 1 at key `"k1"`. -/
def fullCache : List (String × CacheEntry) :=
  [("k0", CacheEntry.mk JValue.jnull 5), ("k1", CacheEntry.mk JValue.jnull 1),
   ("k2", CacheEntry.mk JValue.jnull 7), ("k3", CacheEntry.mk JValue.jnull 9),
   ("k4", CacheEntry.mk JValue.jnull 11), ("k5", CacheEntry.mk JValue.jnull 13),
   ("k6", CacheEntry.mk JValue.jnull 2), ("k7", CacheEntry.mk JValue.jnull 8),
   ("k8", CacheEntry.mk JValue.jnull 4), ("k9", CacheEntry.mk JValue.jnull 6)]

theorem cache_eviction_witness :
    cachePut fullCache "kN" JValue.jnull 99 =
      aset "kN" (CacheEntry.mk JValue.jnull 99) (aeraseKey "k1" fullCache) ∧
    alookup (cachePut fullCache "kN" JValue.jnull 99) "kN" =
      some (CacheEntry.mk JValue.jnull 99) ∧
    alookup (cachePut fullCache "kN" JValue.jnull 99) "k1" = none ∧
    (cachePut fullCache "kN" JValue.jnull 99).length ≤ CACHE_SIZE_LIMIT := by
  have h := cache_eviction fullCache "kN" JValue.jnull 99 (by decide) (by decide)
  have h2 := h.2.2 ("k1", CacheEntry.mk JValue.jnull 1) (by decide) (by rfl)
  exact ⟨h2.2.2.1, h2.2.2.2.1, h2.2.2.2.2.2 (by decide), h.1⟩

/-- Claim C3, counterexample: on the LLM output `"[1]"` extraction
succeeds, validation rejects, and `llm_english_analyze_with_time` returns
the extracted non-null (invalid) value — not a null result as claimed —
though the cache is indeed left unchanged. -/
theorem llm_update_validation_failure_returns_nonnull :
    llm_english_analyze_update [] "k" 0 "[1]" 5 =
      ((some (JValue.jarr [JValue.jnum 1]), 5), []) ∧
    (some (JValue.jarr [JValue.jnum 1]) : Option JValue) ≠ none ∧
    validate_analysis_json (JValue.jarr [JValue.jnum 1]) = false :=
  ⟨rfl, by simp, rfl⟩

/-- Claim C3 as amended: when extraction fails the function returns
`(none, elapsed)` and leaves the cache unchanged; when extraction
succeeds but the value is falsy or rejected by the validator it returns
the extracted value itself (not null) with the elapsed time, and still
leaves the cache unchanged — so the cache is never populated with
invalid or unvalidated results. -/
theorem llm_update_failure_leaves_cache (cache : List (String × CacheEntry)) (k : String)
    (t : Int) (raw : String) (e : Int) :
    (extract_json_from_llm_response raw = none →
      llm_english_analyze_update cache k t raw e = ((none, e), cache)) ∧
    (∀ v, extract_json_from_llm_response raw = some v →
      (truthy v && validate_analysis_json v) = false →
      llm_english_analyze_update cache k t raw e = ((some v, e), cache)) := by
  constructor
  · intro h
    rw [llm_english_analyze_update, h]
  · intro v h hval
    rw [llm_english_analyze_update, h]
    simp [hval]

theorem llm_update_failure_leaves_cache_witness :
    llm_english_analyze_update [] "k" 0 "x" 5 = ((none, 5), []) ∧
    llm_english_analyze_update [] "k" 0 " [0]" 7 =
      ((some (JValue.jarr [JValue.jnum 0]), 7), []) :=
  ⟨(llm_update_failure_leaves_cache [] "k" 0 "x" 5).1 rfl,
   (llm_update_failure_leaves_cache [] "k" 0 " [0]" 7).2 (JValue.jarr [JValue.jnum 0]) rfl rfl⟩

/-- A payload whose single structure element is highlighted and carries a
whitespace-only `role`. -/
def wsRolePayload : JValue :=
  JValue.jobj
    [("Source Sentence", JValue.jstr "x"), ("Translation", JValue.jstr "t"),
     ("StructureAnalysis", JValue.jarr
       [JValue.jobj
         [("segment", JValue.jstr "x"), ("highlight", JValue.jbool true),
          ("role", JValue.jstr " "), ("explanation_cn", JValue.jstr "e")]]),
     ("Vocabulary", JValue.jarr []), ("Decomposition", JValue.jarr [])]

/-- Claim C4, counterexample: the validator accepts a payload whose
highlighted element has a whitespace-only `role` (empty after trimming),
because the check is Python truthiness, not emptiness after trimming. -/
theorem validate_accepts_ws_role :
    validate_analysis_json wsRolePayload = true ∧ pyStrip " " = "" :=
  ⟨rfl, rfl⟩

/-- Claim C4 as amended: the validator rejects every payload containing a
structure element with truthy `highlight` whose `segment`, `role` or
`explanation_cn` is missing or Python-falsy (for strings: exactly the
empty string, so whitespace-only values pass), and elements with falsy or
absent `highlight` are exempt from the sub-check. -/
theorem validate_truthiness_semantics :
    (∀ (fields : List (String × JValue)) (items : List JValue) (f : List (String × JValue)),
      alookup fields "StructureAnalysis" = some (JValue.jarr items) →
      JValue.jobj f ∈ items →
      truthy ((alookup f "highlight").getD (JValue.jbool false)) = true →
      (truthy ((alookup f "segment").getD JValue.jnull) = false ∨
       truthy ((alookup f "role").getD JValue.jnull) = false ∨
       truthy ((alookup f "explanation_cn").getD JValue.jnull) = false) →
      validate_analysis_json (JValue.jobj fields) = false) ∧
    (∀ f : List (String × JValue),
      truthy ((alookup f "highlight").getD (JValue.jbool false)) = false →
      structureItemOk (JValue.jobj f) = true) := by
  constructor
  · intro fields items f hSA hmem hhl hfalsy
    have hitem : structureItemOk (JValue.jobj f) = false := by
      rcases hfalsy with h | h | h <;> simp [structureItemOk, hhl, h]
    have hall : items.all structureItemOk = false := by
      cases hall : items.all structureItemOk with
      | false => rfl
      | true =>
        have := List.all_eq_true.mp hall (JValue.jobj f) hmem
        rw [hitem] at this
        exact Bool.noConfusion this
    simp [validate_analysis_json, hSA, hall]
  · intro f hhl
    simp [structureItemOk, hhl]

theorem validate_truthiness_semantics_witness :
    validate_analysis_json (JValue.jobj
      [("Source Sentence", JValue.jstr "x"), ("Translation", JValue.jstr "t"),
       ("StructureAnalysis", JValue.jarr
         [JValue.jobj [("segment", JValue.jstr "x"), ("highlight", JValue.jbool true),
                       ("role", JValue.jstr ""), ("explanation_cn", JValue.jstr "e")]]),
       ("Vocabulary", JValue.jarr []), ("Decomposition", JValue.jarr [])]) = false ∧
    structureItemOk (JValue.jobj [("segment", JValue.jnull)]) = true :=
  ⟨validate_truthiness_semantics.1
      [("Source Sentence", JValue.jstr "x"), ("Translation", JValue.jstr "t"),
       ("StructureAnalysis", JValue.jarr
         [JValue.jobj [("segment", JValue.jstr "x"), ("highlight", JValue.jbool true),
                       ("role", JValue.jstr ""), ("explanation_cn", JValue.jstr "e")]]),
       ("Vocabulary", JValue.jarr []), ("Decomposition", JValue.jarr [])]
      [JValue.jobj [("segment", JValue.jstr "x"), ("highlight", JValue.jbool true),
                    ("role", JValue.jstr ""), ("explanation_cn", JValue.jstr "e")]]
      [("segment", JValue.jstr "x"), ("highlight", JValue.jbool true),
       ("role", JValue.jstr ""), ("explanation_cn", JValue.jstr "e")]
      rfl (by simp) rfl (Or.inr (Or.inl rfl)),
   validate_truthiness_semantics.2 [("segment", JValue.jnull)] rfl⟩

/-- A payload the validator accepts whose segments do not reconstruct its
`Source Sentence`. -/
def mismatchPayload : JValue :=
  JValue.jobj
    [("Source Sentence", JValue.jstr "abc"), ("Translation", JValue.jstr "t"),
     ("StructureAnalysis", JValue.jarr
       [JValue.jobj [("segment", JValue.jstr "x"), ("highlight", JValue.jbool false)]]),
     ("Vocabulary", JValue.jarr []), ("Decomposition", JValue.jarr [])]

/-- Claim C8, counterexample: `validate_analysis_json` accepts a payload
whose concatenated segment texts (`"x"`) differ from its `Source
Sentence` (`"abc"`), so validator acceptance does not entail the
reconstruction invariant. -/
theorem validate_accepts_mismatched_segments :
    validate_analysis_json mismatchPayload = true ∧
    concatSegments mismatchPayload = "x" ∧
    sourceOf mismatchPayload = "abc" ∧
    concatSegments mismatchPayload ≠ sourceOf mismatchPayload :=
  ⟨rfl, rfl, rfl, by decide⟩

/-- Claim C8 as amended: the validator does not enforce the segment
reconstruction invariant — there are accepted payloads whose in-order
segment concatenation differs from their `Source Sentence` (the invariant
is requested from the LLM in the prompt but is never checked). -/
theorem validate_not_enforce_reconstruction :
    ∃ d : JValue, validate_analysis_json d = true ∧ concatSegments d ≠ sourceOf d := by
  refine ⟨JValue.jobj
    [("Source Sentence", JValue.jstr "xy"), ("Translation", JValue.jstr "t"),
     ("StructureAnalysis", JValue.jarr
       [JValue.jobj [("segment", JValue.jstr "z"), ("highlight", JValue.jbool false)]]),
     ("Vocabulary", JValue.jarr []), ("Decomposition", JValue.jarr [])], rfl, ?_⟩
  decide

/-- A validated highlighted structure element whose `role` and
`explanation_cn` carry markup meta-characters. -/
def scriptRoleItem : JValue :=
  JValue.jobj
    [("segment", JValue.jstr "x"), ("highlight", JValue.jbool true),
     ("role", JValue.jstr "<script>alert(1)</script>"),
     ("explanation_cn", JValue.jstr "<img src=x>")]

/-- Claim C1, failing input: the card rendering loop interpolates `role`
and `explanation_cn` into the emitted markup without escaping, so the
literal `<script>` sequence from the model output survives verbatim in
the fragment (the segment in the same card, and everything in the inline
view, is escaped).  This contradicts the escape-everything rule the code
itself establishes for the inline view. -/
theorem card_view_embeds_unescaped_role :
    (card_html_for 0 scriptRoleItem).isSome = true ∧
    strContains ((card_html_for 0 scriptRoleItem).getD "") "<script>alert(1)</script>" = true ∧
    strContains ((card_html_for 0 scriptRoleItem).getD "") "<img src=x>" = true ∧
    structureItemOk scriptRoleItem = true :=
  ⟨rfl, rfl, rfl, rfl⟩

/-! ### Escaping round-trip lemmas -/

theorem escList_append (a b : List Char) : escList (a ++ b) = escList a ++ escList b := by
  induction a with
  | nil => rfl
  | cons c rest ih => simp [escList, ih]

theorem unescList_amp (r : List Char) :
    unescList ('&' :: 'a' :: 'm' :: 'p' :: ';' :: r) = '&' :: unescList r := rfl

theorem unescList_lt (r : List Char) :
    unescList ('&' :: 'l' :: 't' :: ';' :: r) = '<' :: unescList r := rfl

theorem unescList_gt (r : List Char) :
    unescList ('&' :: 'g' :: 't' :: ';' :: r) = '>' :: unescList r := rfl

theorem unescList_quot (r : List Char) :
    unescList ('&' :: 'q' :: 'u' :: 'o' :: 't' :: ';' :: r) = '"' :: unescList r := rfl

theorem unescList_apos (r : List Char) :
    unescList ('&' :: '#' :: 'x' :: '2' :: '7' :: ';' :: r) = Char.ofNat 39 :: unescList r := rfl

set_option maxHeartbeats 4000000 in
theorem unescList_cons_ne (c : Char) (rest : List Char) (h : c ≠ '&') :
    unescList (c :: rest) = c :: unescList rest := by
  rw [unescList.eq_def]
  split
  all_goals first
    | (rename_i heq; exact List.noConfusion heq)
    | (rename_i heq; injection heq with hc hr; first | exact absurd hc h | rw [hc, hr])

theorem unescList_escList (l m : List Char) :
    unescList (escList l ++ m) = l ++ unescList m := by
  induction l with
  | nil => rfl
  | cons c rest ih =>
    rw [escList, List.append_assoc]
    by_cases h1 : c = '&'
    · subst h1
      rw [show escChar '&' = ['&', 'a', 'm', 'p', ';'] from rfl]
      simp only [List.cons_append, List.nil_append]
      rw [unescList_amp, ih]
    by_cases h2 : c = '<'
    · subst h2
      rw [show escChar '<' = ['&', 'l', 't', ';'] from rfl]
      simp only [List.cons_append, List.nil_append]
      rw [unescList_lt, ih]
    by_cases h3 : c = '>'
    · subst h3
      rw [show escChar '>' = ['&', 'g', 't', ';'] from rfl]
      simp only [List.cons_append, List.nil_append]
      rw [unescList_gt, ih]
    by_cases h4 : c = '"'
    · subst h4
      rw [show escChar '"' = ['&', 'q', 'u', 'o', 't', ';'] from rfl]
      simp only [List.cons_append, List.nil_append]
      rw [unescList_quot, ih]
    by_cases h5 : c = Char.ofNat 39
    · subst h5
      rw [show escChar (Char.ofNat 39) = ['&', '#', 'x', '2', '7', ';'] from rfl]
      simp only [List.cons_append, List.nil_append]
      rw [unescList_apos, ih]
    · rw [show escChar c = [c] by simp [escChar, h1, h2, h3, h4, h5]]
      simp only [List.cons_append, List.nil_append]
      rw [unescList_cons_ne c _ h1, ih]

theorem unescape_concat_escape (ss : List String) :
    unescapeHtml (concatStrs (ss.map escapeHtml)) = concatStrs ss := by
  have key : ∀ tt : List String,
      (concatStrs (tt.map escapeHtml)).data = escList (concatStrs tt).data := by
    intro tt
    induction tt with
    | nil => rfl
    | cons s rest ih =>
      simp [concatStrs, String.data_append, escapeHtml, ih, escList_append]
  have h2 : unescList (escList (concatStrs ss).data) = (concatStrs ss).data := by
    have h3 := unescList_escList (concatStrs ss).data []
    rw [List.append_nil] at h3
    rw [h3, show unescList ([] : List Char) = [] from rfl, List.append_nil]
  rw [unescapeHtml, key, h2]

theorem frag_texts_eq_map (items : List JValue)
    (H : ∀ it ∈ items, hlOf it = true ∧ pyStrip (segOf it) ≠ "" → pyStrip (segOf it) = segOf it) :
    items.map inline_frag_text = items.map (fun it => escapeHtml (segOf it)) := by
  refine List.map_congr_left ?_
  intro it hit
  by_cases hc : hlOf it = true ∧ pyStrip (segOf it) ≠ ""
  · rw [inline_frag_text, if_pos hc, H it hit hc]
  · rw [inline_frag_text, if_neg hc]

/-- A validated payload whose highlighted first segment carries a
trailing space: its segments reconstruct the source, but the rendered
fragments do not. -/
def trailingWsPayload : JValue :=
  JValue.jobj
    [("Source Sentence", JValue.jstr "a b"), ("Translation", JValue.jstr "t"),
     ("StructureAnalysis", JValue.jarr
       [JValue.jobj [("segment", JValue.jstr "a "), ("highlight", JValue.jbool true),
                     ("role", JValue.jstr "r"), ("explanation_cn", JValue.jstr "e")],
        JValue.jobj [("segment", JValue.jstr "b"), ("highlight", JValue.jbool false)]]),
     ("Vocabulary", JValue.jarr []), ("Decomposition", JValue.jarr [])]

/-- Claim C2, counterexample: a validated payload whose segments
concatenate exactly to the source sentence `"a b"`, yet the unescaped
concatenation of the inline fragments is `"ab"` — the renderer strips the
surrounding whitespace of every highlighted segment before embedding. -/
theorem inline_reconstruction_loses_ws :
    validate_analysis_json trailingWsPayload = true ∧
    concatSegments trailingWsPayload = sourceOf trailingWsPayload ∧
    unescapeHtml (concatStrs ((structureItems trailingWsPayload).map inline_frag_text)) = "ab" ∧
    "ab" ≠ sourceOf trailingWsPayload :=
  ⟨rfl, rfl, rfl, by decide⟩

/-- Claim C2 as amended: for a validated payload whose segment texts
concatenate to the source sentence, the unescaped concatenation of the
inline fragment texts equals the source sentence provided no segment the
renderer highlights (truthy `highlight`, non-blank text) carries leading
or trailing whitespace; in general each such segment appears trimmed in
the fragments.  (Stated for payloads whose `segment` fields are strings
or absent — the renderer calls string methods on them.) -/
theorem inline_reconstruction_of_trim_invariant (d : JValue) (items : List JValue) (src : String)
    (hvalid : validate_analysis_json d = true)
    (hSA : alookup (asObj d) "StructureAnalysis" = some (JValue.jarr items))
    (hsrc : alookup (asObj d) "Source Sentence" = some (JValue.jstr src))
    (hstr : ∀ it ∈ items, strFieldB (asObj it) "segment" = true)
    (hnows : ∀ it ∈ items, hlOf it = true ∧ pyStrip (segOf it) ≠ "" →
      pyStrip (segOf it) = segOf it)
    (hconcat : concatStrs (items.map segOf) = src) :
    unescapeHtml (concatStrs (items.map inline_frag_text)) = src := by
  rw [frag_texts_eq_map items hnows]
  have h2 : items.map (fun it => escapeHtml (segOf it)) = (items.map segOf).map escapeHtml := by
    rw [List.map_map]
    rfl
  rw [h2, unescape_concat_escape, hconcat]

/-- A validated payload with no surrounding whitespace on its highlighted
segments, used to instantiate the amended reconstruction theorem. -/
def cleanPayload : JValue :=
  JValue.jobj
    [("Source Sentence", JValue.jstr "ab c"), ("Translation", JValue.jstr "t"),
     ("StructureAnalysis", JValue.jarr
       [JValue.jobj [("segment", JValue.jstr "ab"), ("highlight", JValue.jbool true),
                     ("role", JValue.jstr "r"), ("explanation_cn", JValue.jstr "e")],
        JValue.jobj [("segment", JValue.jstr " c"), ("highlight", JValue.jbool false)]]),
     ("Vocabulary", JValue.jarr []), ("Decomposition", JValue.jarr [])]

theorem inline_reconstruction_of_trim_invariant_witness :
    unescapeHtml (concatStrs ((structureItems cleanPayload).map inline_frag_text)) = "ab c" :=
  inline_reconstruction_of_trim_invariant cleanPayload (structureItems cleanPayload) "ab c"
    rfl rfl rfl (by decide) (by decide) rfl

end EngAnalyze
